import Mathlib

/- Verification development for the client-side metrics aggregation and
   static-data substitution layer of the dash-setup frontend.
   Definitions are shallow embeddings of the TypeScript source in
   src/frontend/src/api.ts, src/frontend/src/components/VolumeMetrics.tsx and
   the FilterBar component.  JavaScript numbers are modelled as rationals. -/

/- JavaScript Math.round: round half toward positive infinity. -/
def jsRound (x : ℚ) : ℤ := ⌊x + 1/2⌋

/- Math.round(x * 100) / 100, the two-decimal rounding used throughout api.ts. -/
def round2 (x : ℚ) : ℚ := (jsRound (x * 100) : ℚ) / 100

/- Math.round(x * 10) / 10, the one-decimal rounding used for median minutes. -/
def round1 (x : ℚ) : ℚ := (jsRound (x * 10) : ℚ) / 10

theorem jsRound_sub_le (x : ℚ) : |(jsRound x : ℚ) - x| ≤ 1/2 := by
  rw [jsRound, abs_le]
  constructor
  · have h := Int.lt_floor_add_one (x + 1/2)
    linarith
  · have h := Int.floor_le (x + 1/2)
    linarith

theorem round2_sub_le (x : ℚ) : |round2 x - x| ≤ 1/200 := by
  have h := jsRound_sub_le (x * 100)
  rw [abs_le] at h ⊢
  rw [round2]
  constructor
  · linarith [h.1]
  · linarith [h.2]

theorem round2_zero : round2 0 = 0 := by
  rw [round2, jsRound]
  norm_num

/- Association-list model of a JavaScript Map with insertion-order iteration.
   alookup is Map.get, assocUpd mutates the value stored at an existing key in
   place, and appending at the end models Map.set of a fresh key. -/

def alookup {A : Type} : List (String × A) → String → Option A
  | [], _ => none
  | (k, v) :: rest, q => if k = q then some v else alookup rest q

def assocUpd {A : Type} (q : String) (f : A → A) : List (String × A) → List (String × A)
  | [] => []
  | (k, v) :: rest => if k = q then (k, f v) :: rest else (k, v) :: assocUpd q f rest

/- One iteration of the accumulation loops in api.ts: look the key up, update
   the existing accumulator if present, otherwise insert a fresh one. -/
def gstep {R A : Type} (key : R → String) (ini : R → A) (upd : A → R → A)
    (m : List (String × A)) (r : R) : List (String × A) :=
  match alookup m (key r) with
  | some _ => assocUpd (key r) (fun a => upd a r) m
  | none => m ++ [(key r, ini r)]

def groupFold {R A : Type} (key : R → String) (ini : R → A) (upd : A → R → A)
    (rows : List R) : List (String × A) :=
  rows.foldl (gstep key ini upd) []

theorem alookup_assocUpd {A : Type} (q : String) (f : A → A) (m : List (String × A))
    (k : String) :
    alookup (assocUpd q f m) k = if q = k then (alookup m k).map f else alookup m k := by
  induction m with
  | nil => simp [assocUpd, alookup]
  | cons p rest ih =>
    obtain ⟨k0, v⟩ := p
    by_cases h0 : k0 = q
    · subst h0
      by_cases hk : k0 = k
      · subst hk
        simp [assocUpd, alookup]
      · simp [assocUpd, alookup, hk]
    · by_cases hk : k0 = k
      · subst hk
        have hq : ¬ q = k0 := fun h => h0 h.symm
        simp [assocUpd, alookup, h0, hq]
      · simp [assocUpd, alookup, h0, hk, ih]

theorem alookup_append_single {A : Type} (m : List (String × A)) (k0 : String) (a : A)
    (k : String) :
    alookup (m ++ [(k0, a)]) k =
      match alookup m k with
      | some v => some v
      | none => if k0 = k then some a else none := by
  induction m with
  | nil => simp [alookup]
  | cons p rest ih =>
    obtain ⟨k1, v⟩ := p
    by_cases hk : k1 = k
    · simp [alookup, hk]
    · simp [alookup, hk, ih]

theorem alookup_gstep {R A : Type} (key : R → String) (ini : R → A) (upd : A → R → A)
    (m : List (String × A)) (r : R) (k : String) :
    alookup (gstep key ini upd m r) k =
      if key r = k then
        some (match alookup m k with | none => ini r | some a => upd a r)
      else alookup m k := by
  rw [gstep]
  cases hm : alookup m (key r) with
  | some a =>
    rw [alookup_assocUpd]
    by_cases hk : key r = k
    · subst hk
      simp [hm]
    · simp [hk]
  | none =>
    rw [alookup_append_single]
    by_cases hk : key r = k
    · subst hk
      simp [hm]
    · cases h2 : alookup m k with
      | some v => simp [hk]
      | none => simp [hk]

/- The optional-accumulator step: what a filtered-row fold does to the value
   a single key accumulates to. -/
def optUpd {R A : Type} (ini : R → A) (upd : A → R → A) (oa : Option A) (r : R) :
    Option A :=
  some (match oa with | none => ini r | some a => upd a r)

theorem foldl_optUpd_some {R A : Type} (ini : R → A) (upd : A → R → A)
    (l : List R) (a : A) :
    l.foldl (optUpd ini upd) (some a) = some (l.foldl upd a) := by
  induction l generalizing a with
  | nil => rfl
  | cons r rest ih => simp [List.foldl_cons, optUpd, ih]

theorem foldl_gstep_alookup {R A : Type} (key : R → String) (ini : R → A)
    (upd : A → R → A) (rows : List R) (m : List (String × A)) (k : String) :
    alookup (rows.foldl (gstep key ini upd) m) k =
      (rows.filter (fun r => key r = k)).foldl (optUpd ini upd) (alookup m k) := by
  induction rows generalizing m with
  | nil => rfl
  | cons r rest ih =>
    rw [List.foldl_cons, ih, alookup_gstep, List.filter_cons]
    by_cases hk : key r = k
    · simp [hk, optUpd]
    · simp [hk]

theorem groupFold_alookup {R A : Type} (key : R → String) (ini : R → A)
    (upd : A → R → A) (rows : List R) (k : String) :
    alookup (groupFold key ini upd rows) k =
      (rows.filter (fun r => key r = k)).foldl (optUpd ini upd) none := by
  rw [groupFold, foldl_gstep_alookup]
  rfl

theorem groupFold_alookup_eq_none {R A : Type} (key : R → String) (ini : R → A)
    (upd : A → R → A) (rows : List R) (k : String)
    (h : alookup (groupFold key ini upd rows) k = none) :
    rows.filter (fun r => key r = k) = [] := by
  rw [groupFold_alookup] at h
  cases hf : rows.filter (fun r => key r = k) with
  | nil => rfl
  | cons r rest =>
    rw [hf, List.foldl_cons] at h
    simp only [optUpd] at h
    rw [foldl_optUpd_some] at h
    exact absurd h (by simp)

theorem groupFold_alookup_of_filter {R A : Type} (key : R → String) (ini : R → A)
    (upd : A → R → A) (rows : List R) (k : String) (r0 : R) (l : List R)
    (hf : rows.filter (fun r => key r = k) = r0 :: l) :
    alookup (groupFold key ini upd rows) k = some (l.foldl upd (ini r0)) := by
  rw [groupFold_alookup, hf, List.foldl_cons]
  simp only [optUpd]
  exact foldl_optUpd_some ini upd l (ini r0)

/- Keys of the accumulated map are exactly the distinct keys seen, so the map
   entries are keyed without duplicates and membership determines lookup. -/

theorem keys_assocUpd {A : Type} (q : String) (f : A → A) (m : List (String × A)) :
    (assocUpd q f m).map Prod.fst = m.map Prod.fst := by
  induction m with
  | nil => rfl
  | cons p rest ih =>
    obtain ⟨k, v⟩ := p
    by_cases hk : k = q
    · simp [assocUpd, hk]
    · simp [assocUpd, hk, ih]

theorem alookup_eq_none_iff {A : Type} (m : List (String × A)) (k : String) :
    alookup m k = none ↔ k ∉ m.map Prod.fst := by
  induction m with
  | nil => simp [alookup]
  | cons p rest ih =>
    obtain ⟨k0, v⟩ := p
    by_cases hk : k0 = k
    · subst hk
      simp [alookup]
    · have hk2 : ¬ k = k0 := fun h => hk h.symm
      simp [alookup, hk, ih, hk2]

theorem keys_nodup_gstep {R A : Type} (key : R → String) (ini : R → A)
    (upd : A → R → A) (m : List (String × A)) (r : R)
    (h : (m.map Prod.fst).Nodup) :
    ((gstep key ini upd m r).map Prod.fst).Nodup := by
  rw [gstep]
  cases hm : alookup m (key r) with
  | some a => rw [keys_assocUpd]; exact h
  | none =>
    rw [alookup_eq_none_iff] at hm
    simp only [List.map_append, List.map_cons, List.map_nil]
    rw [List.nodup_append]
    refine ⟨h, List.nodup_singleton _, ?_⟩
    intro x hx hy
    simp only [List.mem_singleton] at hy
    subst hy
    exact hm hx

theorem keys_nodup_groupFold {R A : Type} (key : R → String) (ini : R → A)
    (upd : A → R → A) (rows : List R) :
    ((groupFold key ini upd rows).map Prod.fst).Nodup := by
  rw [groupFold]
  have h : ∀ (m : List (String × A)), (m.map Prod.fst).Nodup →
      ((rows.foldl (gstep key ini upd) m).map Prod.fst).Nodup := by
    induction rows with
    | nil => intro m hm; exact hm
    | cons r rest ih =>
      intro m hm
      rw [List.foldl_cons]
      exact ih _ (keys_nodup_gstep key ini upd m r hm)
  exact h [] (by simp)

theorem mem_alookup {A : Type} (m : List (String × A)) (k : String) (v : A)
    (hnd : (m.map Prod.fst).Nodup) (h : (k, v) ∈ m) : alookup m k = some v := by
  induction m with
  | nil => simp at h
  | cons p rest ih =>
    obtain ⟨k0, v0⟩ := p
    simp only [List.map_cons, List.nodup_cons] at hnd
    rcases List.mem_cons.mp h with h1 | h2
    · rw [Prod.mk.injEq] at h1
      obtain ⟨hk, hv⟩ := h1
      subst hk; subst hv
      simp [alookup]
    · have hk0 : k0 ≠ k := by
        intro he
        subst he
        exact hnd.1 (List.mem_map.mpr ⟨(k0, v), h2, rfl⟩)
      simp only [alookup, hk0, if_false]
      exact ih hnd.2 h2

theorem groupFold_mem_alookup {R A : Type} (key : R → String) (ini : R → A)
    (upd : A → R → A) (rows : List R) (k : String) (v : A)
    (h : (k, v) ∈ groupFold key ini upd rows) :
    alookup (groupFold key ini upd rows) k = some v :=
  mem_alookup _ _ _ (keys_nodup_groupFold key ini upd rows) h

/- Field extraction: any accumulator field that starts at f r and grows by
   f r on every update equals the sum of f over the matching rows. -/
theorem groupFold_field_sum {R A : Type} (key : R → String) (ini : R → A)
    (upd : A → R → A) (g : A → ℚ) (f : R → ℚ)
    (hini : ∀ r, g (ini r) = f r) (hupd : ∀ a r, g (upd a r) = g a + f r)
    (rows : List R) (k : String) (v : A)
    (hv : alookup (groupFold key ini upd rows) k = some v) :
    g v = ((rows.filter (fun r => key r = k)).map f).sum := by
  have haux : ∀ (l : List R) (a : A), g (l.foldl upd a) = g a + (l.map f).sum := by
    intro l
    induction l with
    | nil => intro a; simp
    | cons r rest ih =>
      intro a
      rw [List.foldl_cons, ih, hupd]
      simp [add_assoc]
  cases hf : rows.filter (fun r => key r = k) with
  | nil =>
    rw [groupFold_alookup, hf] at hv
    exact absurd hv (by simp)
  | cons r0 l =>
    rw [groupFold_alookup_of_filter key ini upd rows k r0 l hf] at hv
    have hv2 : l.foldl upd (ini r0) = v := Option.some.inj hv
    rw [← hv2, haux, hini, List.map_cons, List.sum_cons]

/- Generic: a fold over rows mapped through a transformer that leaves the key,
   the initial accumulator and the update untouched yields the same map.  Used
   to show the aggregations never read the precomputed percentage fields. -/
theorem groupFold_map_invariant {R A : Type} (key : R → String) (ini : R → A)
    (upd : A → R → A) (σ : R → R)
    (hk : ∀ r, key (σ r) = key r) (hi : ∀ r, ini (σ r) = ini r)
    (hu : ∀ a r, upd a (σ r) = upd a r) (rows : List R) :
    groupFold key ini upd (rows.map σ) = groupFold key ini upd rows := by
  rw [groupFold, groupFold, List.foldl_map]
  have h : ∀ (m : List (String × A)),
      rows.foldl (fun m r => gstep key ini upd m (σ r)) m =
      rows.foldl (gstep key ini upd) m := by
    induction rows with
    | nil => intro m; rfl
    | cons r rest ih =>
      intro m
      rw [List.foldl_cons, List.foldl_cons, ih]
      congr 1
      have hfu : (fun a => upd a (σ r)) = fun a => upd a r := funext fun a => hu a r
      rw [gstep, gstep, hk, hi, hfu]
  exact h []

/- Row shapes from src/frontend/src/types.ts and api.ts.  Optional fields of
   the TypeScript interfaces are Options; numbers are rationals. -/

structure VolumeRow where
  date : String
  count : ℚ
  supplier_id : Option String := none

structure VolumeOut where
  date : String
  count : ℚ

structure CycleRow where
  date : String
  avg_minutes : ℚ
  count : ℚ
  supplier_id : Option String := none

structure CTAcc where
  weightedSum : ℚ
  totalCount : ℚ

structure CycleOut where
  date : String
  avg_minutes : ℚ
  count : ℚ

structure ProdRow where
  user_id : String
  user_name : String
  total_processed : ℚ
  avg_per_day : ℚ
  median_minutes : Option ℚ := none
  supplier_id : Option String := none

structure ProdAcc where
  user_name : String
  total : ℚ
  avgPerDay : ℚ
  medianWeightedSum : ℚ
  medianCount : ℚ

structure ProdOut where
  user_id : String
  user_name : String
  total_processed : ℚ
  avg_per_day : ℚ
  median_minutes : Option ℚ

structure CatUserRow where
  user_id : String
  user_name : String
  category : String
  count : ℚ
  percentage : ℚ
  supplier_id : Option String := none

structure CatUserAcc where
  user_id : String
  user_name : String
  category : String
  count : ℚ

structure CatUserOut where
  user_id : String
  user_name : String
  category : String
  count : ℚ
  percentage : ℚ

structure CatRow where
  category : String
  count : ℚ
  percentage : ℚ
  supplier_id : Option String := none

structure CatOut where
  category : String
  count : ℚ
  percentage : ℚ

/- filterBySupplier from api.ts: show all when no filter is active, otherwise
   keep the rows tagged with the selected supplier. -/
def filterBySupplier {T : Type} (sidOf : T → Option String) (data : List T)
    (supplierId : Option String) : List T :=
  match supplierId with
  | none => data
  | some sid => data.filter (fun item => sidOf item = some sid)

/- aggregateVolumeByDate: sum counts by date, then sort ascending by date. -/
def aggregateVolumeByDate (data : List VolumeRow) : List VolumeOut :=
  ((groupFold (fun r => r.date) (fun r => r.count) (fun a r => a + r.count) data).map
    (fun p => VolumeOut.mk p.1 p.2)).mergeSort (fun a b => a.date ≤ b.date)

/- aggregateCycleTimeByDate: accumulate weighted sum and total count by date,
   then emit the weighted average guarded by totalCount > 0. -/
def aggregateCycleTimeByDate (data : List CycleRow) : List CycleOut :=
  ((groupFold (fun r => r.date)
      (fun r => CTAcc.mk (r.avg_minutes * r.count) r.count)
      (fun a r => CTAcc.mk (a.weightedSum + r.avg_minutes * r.count) (a.totalCount + r.count))
      data).map
    (fun p => CycleOut.mk p.1
      (if p.2.totalCount > 0 then round2 (p.2.weightedSum / p.2.totalCount) else 0)
      p.2.totalCount)).mergeSort (fun a b => a.date ≤ b.date)

/- computeOverallAvg: overall weighted average across cycle-time rows, guarded
   by totalCount === 0. -/
def computeOverallAvg (data : List CycleOut) : ℚ :=
  let totalCount := (data.map (fun r => r.count)).sum
  if totalCount = 0 then 0
  else round2 ((data.map (fun r => r.avg_minutes * r.count)).sum / totalCount)

def prodInit (r : ProdRow) : ProdAcc :=
  ProdAcc.mk r.user_name r.total_processed r.avg_per_day
    (match r.median_minutes with | some m => m * r.total_processed | none => 0)
    (match r.median_minutes with | some _ => r.total_processed | none => 0)

def prodUpd (a : ProdAcc) (r : ProdRow) : ProdAcc :=
  ProdAcc.mk a.user_name (a.total + r.total_processed) (a.avgPerDay + r.avg_per_day)
    (a.medianWeightedSum + match r.median_minutes with | some m => m * r.total_processed | none => 0)
    (a.medianCount + match r.median_minutes with | some _ => r.total_processed | none => 0)

/- aggregateProductivityByUser: sum totals per user; the median is aggregated
   as a weight-tracked pair and finalized to undefined when its weight is 0;
   output sorted by total_processed descending. -/
def aggregateProductivityByUser (data : List ProdRow) : List ProdOut :=
  ((groupFold (fun r => r.user_id) prodInit prodUpd data).map
    (fun p => ProdOut.mk p.1 p.2.user_name p.2.total (round2 p.2.avgPerDay)
      (if p.2.medianCount > 0 then some (round1 (p.2.medianWeightedSum / p.2.medianCount))
       else none))).mergeSort (fun a b => b.total_processed ≤ a.total_processed)

/- Key of the user+category map in aggregateCategoryByUser. -/
def keyUC (r : CatUserRow) : String := r.user_id ++ "|||" ++ r.category

def iniUC (r : CatUserRow) : CatUserAcc :=
  CatUserAcc.mk r.user_id r.user_name r.category r.count

def updUC (a : CatUserAcc) (r : CatUserRow) : CatUserAcc :=
  CatUserAcc.mk a.user_id a.user_name a.category (a.count + r.count)

def byUserCat (data : List CatUserRow) : List (String × CatUserAcc) :=
  groupFold keyUC iniUC updUC data

def userTotals (data : List CatUserRow) : List (String × ℚ) :=
  groupFold (fun r => r.user_id) (fun r => r.count) (fun a r => a + r.count) data

/- The JS denominator userTotals.get(v.user_id) || 1: an absent or zero user
   total falls back to 1. -/
def userDenom (data : List CatUserRow) (uid : String) : ℚ :=
  match alookup (userTotals data) uid with
  | some t => if t = 0 then 1 else t
  | none => 1

/- aggregateCategoryByUser: sum counts per user+category pair, recompute each
   percentage against the own total of that user (JS || 1 default when the
   total is absent or 0), then sort by user name ascending, count descending. -/
def aggregateCategoryByUser (data : List CatUserRow) : List CatUserOut :=
  ((byUserCat data).map
    (fun p =>
      CatUserOut.mk p.2.user_id p.2.user_name p.2.category p.2.count
        (round2 (p.2.count / userDenom data p.2.user_id * 100)))).mergeSort
    (fun a b => a.user_name < b.user_name ∨ (a.user_name = b.user_name ∧ b.count ≤ a.count))

/- aggregateCategoryDistribution: sum counts per category, then recompute each
   percentage from the summed counts against the grand total. -/
def aggregateCategoryDistribution (data : List CatRow) : List CatOut :=
  let byCat := groupFold (fun r => r.category) (fun r => r.count) (fun a r => a + r.count) data
  let total := (byCat.map (fun p => p.2)).sum
  byCat.map (fun p => CatOut.mk p.1 p.2
    (if total > 0 then round2 (p.2 / total * 100) else 0))

/- Linear-regression trend estimator from VolumeMetrics.tsx (same helper is
   repeated in AccuracyMetrics): x values are the position indices. -/
def regXs (len : ℕ) : List ℚ := (List.range len).map (fun i : ℕ => (i : ℚ))

def regXMean (len : ℕ) : ℚ := (regXs len).sum / (len : ℚ)

def regDen (len : ℕ) : ℚ := ((regXs len).map (fun x => (x - regXMean len) ^ 2)).sum

def calculateLinearRegression (data : List (String × ℚ)) : Option (List (String × ℚ)) :=
  if data.length < 2 then none
  else
    let n : ℚ := data.length
    let xValues := regXs data.length
    let yValues := data.map Prod.snd
    let xMean := regXMean data.length
    let yMean := yValues.sum / n
    let numerator := ((xValues.zip yValues).map (fun p => (p.1 - xMean) * (p.2 - yMean))).sum
    let slope := numerator / regDen data.length
    let intercept := yMean - slope * xMean
    some ((data.zip xValues).map (fun p => (p.1.1, slope * p.2 + intercept)))

/- FilterState from types.ts; dates are abstracted to integers. -/

structure FilterState where
  startDate : ℤ
  endDate : ℤ
  aiIntakeOnly : Bool
  supplierId : Option String
  supplierOrganizationId : Option String

/- Live-mode change handlers of the FilterBar component.  An empty select
   value means the All option, which JS value || null turns into null. -/

def handleOrganizationChange (value : String) (f : FilterState) : FilterState :=
  { f with
    supplierOrganizationId := if value = "" then none else some value,
    supplierId := none }

def handleSupplierChange (value : String) (f : FilterState) : FilterState :=
  { f with supplierId := if value = "" then none else some value }

def handleAiToggle (f : FilterState) : FilterState :=
  { f with aiIntakeOnly := !f.aiIntakeOnly }

def handleDateChange (isStart : Bool) (date : Option ℤ) (f : FilterState) : FilterState :=
  match date with
  | none => f
  | some d => if isStart then { f with startDate := d } else { f with endDate := d }

inductive FilterOp where
  | dateChange (isStart : Bool) (d : Option ℤ)
  | aiToggle
  | orgChange (v : String)
  | supplierChange (v : String)

def applyFilterOp (f : FilterState) : FilterOp → FilterState
  | .dateChange isStart d => handleDateChange isStart d f
  | .aiToggle => handleAiToggle f
  | .orgChange v => handleOrganizationChange v f
  | .supplierChange v => handleSupplierChange v f

def runFilterOps (ops : List FilterOp) (f : FilterState) : FilterState :=
  ops.foldl applyFilterOp f

/- Static snapshot data model (api.ts staticData cache and its payloads). -/

structure PagesData where
  total_documents : Option ℚ
  total_pages : Option ℚ

structure StateDistRow where
  state : String
  count : ℚ

structure StateDistSection where
  data : Option (List StateDistRow)
  total : Option ℚ

structure CTSection where
  state_distribution : Option StateDistSection

structure OrgData where
  volume_by_day : Option (List VolumeRow)
  pages : Option PagesData
  cycle_time : Option CTSection

structure SupplierSlice where
  pages : Option PagesData

structure OrgMeta where
  id : String

structure Metadata where
  organizations : Option (List OrgMeta)

structure OrgBundle where
  organization : OrgData
  suppliers : List String
  per_supplier : List (String × SupplierSlice)

structure Dashboard where
  by_org : Option (List (String × OrgBundle))
  organization : Option OrgData
  suppliers : Option (List String)
  per_supplier : Option (List (String × SupplierSlice))

structure StaticData where
  organization : Option OrgData
  suppliers : Option (List String)
  perSupplier : Option (List (String × SupplierSlice))
  metadata : Option Metadata
  currentSupplierId : Option String
  fullPayload : Option Dashboard
  currentOrganizationId : Option String

def initialStaticData : StaticData :=
  StaticData.mk none none none none none none none

/- applyStaticOrg: select one organization slice out of the multi-org payload;
   a missing payload or unknown id leaves the cache untouched. -/
def applyStaticOrg (orgId : String) (st : StaticData) : StaticData :=
  match st.fullPayload with
  | none => st
  | some fp =>
    match fp.by_org with
    | none => st
    | some m =>
      match alookup m orgId with
      | none => st
      | some slice =>
        { st with
          organization := some slice.organization,
          suppliers := some slice.suppliers,
          perSupplier := some slice.per_supplier,
          currentOrganizationId := some orgId }

/- Outcome of the two bundle fetches and the metadata fetch: none models a
   response that is not ok, and the Except models the parse/decompress step. -/
structure FetchEnv where
  gz : Option (Except String Dashboard)
  json : Option (Except String Dashboard)
  metadataJson : Except String Metadata

/- fetchDashboardJson: prefer the gzipped bundle when its response is ok (a
   decompression or parse failure then propagates), fall back to the plain
   JSON bundle, and throw when neither is fetchable. -/
def fetchDashboardJson (env : FetchEnv) : Except String Dashboard :=
  match env.gz with
  | some r => r
  | none =>
    match env.json with
    | some r => r
    | none => Except.error "Missing dashboard data (tried .gz and .json)"

/- The already-loaded test of loadStaticData. -/
def isLoaded (st : StaticData) : Prop :=
  st.metadata.isSome ∧ (st.organization.isSome ∨ st.fullPayload.isSome)

instance (st : StaticData) : Decidable (isLoaded st) := by
  unfold isLoaded
  infer_instance

/- The conditional slice activation at the end of the multi-org load branch:
   if (orgId) applyStaticOrg(orgId). -/
def selectStaticOrg (orgId : Option String) (st : StaticData) : StaticData :=
  match orgId with
  | some oid => applyStaticOrg oid st
  | none => st

/- loadStaticData: memoized load of the bundle plus metadata.  Returns the new
   cache state, the propagated error if any, and whether a fetch was issued.
   All cache assignments happen only after both fetches succeed, mirroring the
   await Promise.all in the source. -/
def loadStaticData (env : FetchEnv) (saved : Option String) (st : StaticData) :
    StaticData × Option String × Bool :=
  if isLoaded st then (st, none, false)
  else
    match fetchDashboardJson env, env.metadataJson with
    | .error e, _ => (st, some e, true)
    | .ok _, .error e => (st, some e, true)
    | .ok dd, .ok md =>
      let st1 := { st with metadata := some md }
      match dd.by_org with
      | some byOrgMap =>
        let st2 := { st1 with fullPayload := some dd }
        let orgs := md.organizations.getD []
        let orgId : Option String :=
          match saved with
          | some sid =>
            match alookup byOrgMap sid with
            | some _ => some sid
            | none => (orgs.head?).map (fun o => o.id)
          | none => (orgs.head?).map (fun o => o.id)
        (selectStaticOrg orgId st2, none, true)
      | none =>
        ({ st1 with
            organization := dd.organization,
            suppliers := dd.suppliers,
            perSupplier := dd.per_supplier }, none, true)

/- setStaticOrganizationId: explicit organization switch; persists the choice
   (modelled by the World storage below) and re-derives the slice in memory. -/
def setStaticOrganizationId (orgId : Option String) (st : StaticData) : StaticData :=
  match orgId with
  | some oid => applyStaticOrg oid st
  | none => { st with currentOrganizationId := none }

/- Browser-session world: the cache, the persisted org choice, and a counter
   of bundle fetches issued so far. -/
structure World where
  data : StaticData
  storage : Option String
  fetches : ℕ

inductive StaticOp where
  | load
  | switchOrg (orgId : Option String)

def runStaticOp (env : FetchEnv) (w : World) : StaticOp → World
  | .load =>
    let res := loadStaticData env w.storage w.data
    World.mk res.1 w.storage (w.fetches + (if res.2.2 then 1 else 0))
  | .switchOrg o =>
    let stor := match o with | some oid => some oid | none => w.storage
    World.mk (setStaticOrganizationId o w.data) stor w.fetches

def runStaticOps (env : FetchEnv) (ops : List StaticOp) (w : World) : World :=
  ops.foldl (runStaticOp env) w

/- Static-mode facade branches (the STATIC_MODE paths of fetchFaxVolume,
   fetchPagesStats and fetchStateDistribution in api.ts). -/

structure FaxVolumeResponse where
  data : List VolumeOut
  total : ℚ
  period : String

structure PagesStatsResponse where
  total_documents : ℚ
  total_pages : ℚ

structure StateDistributionResponse where
  data : List StateDistRow
  total : ℚ

def fetchFaxVolumeStatic (st : StaticData) : FaxVolumeResponse :=
  let volumeData := (st.organization.bind (fun o => o.volume_by_day)).getD []
  let filtered := filterBySupplier (fun r => r.supplier_id) volumeData st.currentSupplierId
  let aggregated := aggregateVolumeByDate filtered
  FaxVolumeResponse.mk aggregated ((aggregated.map (fun r => r.count)).sum) "day"

def fetchPagesStatsStatic (st : StaticData) : PagesStatsResponse :=
  let orgPages := st.organization.bind (fun o => o.pages)
  let supPages :=
    st.currentSupplierId.bind (fun sid =>
      (st.perSupplier.bind (fun m => alookup m sid)).bind (fun sl => sl.pages))
  match supPages with
  | some p => PagesStatsResponse.mk (p.total_documents.getD 0) (p.total_pages.getD 0)
  | none =>
    PagesStatsResponse.mk ((orgPages.bind (fun p => p.total_documents)).getD 0)
      ((orgPages.bind (fun p => p.total_pages)).getD 0)

def fetchStateDistributionStatic (st : StaticData) : StateDistributionResponse :=
  match st.organization.bind (fun o => o.cycle_time.bind (fun c => c.state_distribution)) with
  | some s =>
    match s.data with
    | some rows => StateDistributionResponse.mk rows (s.total.getD 0)
    | none => StateDistributionResponse.mk [] 0
  | none => StateDistributionResponse.mk [] 0

/- Helper facts about the regression over position indices. -/

theorem sum_range_cast (n : ℕ) :
    ((List.range n).map (fun i : ℕ => (i : ℚ))).sum = (n : ℚ) * ((n : ℚ) - 1) / 2 := by
  induction n with
  | zero => simp
  | succ m ih =>
    rw [List.range_succ, List.map_append, List.sum_append, ih]
    simp only [List.map_cons, List.map_nil, List.sum_cons, List.sum_nil]
    push_cast
    ring

theorem regXs_length (n : ℕ) : (regXs n).length = n := by
  rw [regXs, List.length_map, List.length_range]

theorem regXMean_eq (n : ℕ) (h : 1 ≤ n) : regXMean n = ((n : ℚ) - 1) / 2 := by
  have hn : (n : ℚ) ≠ 0 := Nat.cast_ne_zero.mpr (by omega)
  rw [regXMean, regXs, sum_range_cast]
  field_simp
  ring

theorem regDen_pos (n : ℕ) (h : 2 ≤ n) : 0 < regDen n := by
  obtain ⟨m, rfl⟩ : ∃ m, n = m + 2 := ⟨n - 2, by omega⟩
  have hx : regXMean (m + 2) = ((m : ℚ) + 1) / 2 := by
    rw [regXMean_eq (m + 2) (by omega)]
    push_cast
    ring
  have hr : List.range (m + 2) = 0 :: (List.range (m + 1)).map Nat.succ :=
    List.range_succ_eq_map (m + 1)
  rw [regDen, regXs, hr, List.map_cons, List.map_cons, List.sum_cons]
  have h1 : 0 < ((((0 : ℕ) : ℚ)) - regXMean (m + 2)) ^ 2 := by
    rw [hx]
    push_cast
    nlinarith [Nat.cast_nonneg (α := ℚ) m]
  have h2 : 0 ≤ ((((List.range (m + 1)).map Nat.succ).map (fun i : ℕ => (i : ℚ))).map
      (fun x => (x - regXMean (m + 2)) ^ 2)).sum := by
    apply List.sum_nonneg
    intro x hx2
    obtain ⟨y, _, rfl⟩ := List.mem_map.mp hx2
    positivity
  linarith

theorem regDen_ne_zero (n : ℕ) (h : 2 ≤ n) : regDen n ≠ 0 :=
  ne_of_gt (regDen_pos n h)

theorem sum_map_affine (l : List ℚ) (m b : ℚ) :
    (l.map (fun x => m * x + b)).sum = m * l.sum + (l.length : ℚ) * b := by
  induction l with
  | nil => simp
  | cons x rest ih =>
    simp only [List.map_cons, List.sum_cons, List.length_cons, ih]
    push_cast
    ring

theorem zip_self_map {α β : Type} (l : List α) (g : α → β) :
    l.zip (l.map g) = l.map (fun a => (a, g a)) := by
  induction l with
  | nil => rfl
  | cons x rest ih => simp [ih]

/-- C7: for an input of length < 2 the trend estimator returns null without
performing the regression, and for length ≥ 2 the denominator sum of the
regression is nonzero, so it is never used as a divisor when it is 0. -/
theorem calculateLinearRegression_short_input (data : List (String × ℚ)) :
    (data.length < 2 → calculateLinearRegression data = none) ∧
    (2 ≤ data.length → regDen data.length ≠ 0) := by
  constructor
  · intro h
    rw [calculateLinearRegression, if_pos h]
  · intro h
    exact regDen_ne_zero data.length h

/-- C7 witness: the empty input and the singleton input yield null, and the
two-point denominator is nonzero. -/
theorem calculateLinearRegression_short_input_witness :
    calculateLinearRegression [] = none ∧
    calculateLinearRegression [("a", (3 : ℚ))] = none ∧
    regDen 2 ≠ 0 :=
  ⟨(calculateLinearRegression_short_input []).1 (by decide),
   (calculateLinearRegression_short_input [("a", (3 : ℚ))]).1 (by decide),
   (calculateLinearRegression_short_input [("a", (3 : ℚ)), ("b", (7 : ℚ))]).2 (by decide)⟩

/-- C8: on an input of length ≥ 2 whose values lie exactly on a line
(value at index i equal to m0 · i + b), the fitted output sequence equals the
input sequence. -/
theorem calculateLinearRegression_linear_fixed (data : List (String × ℚ)) (m0 b : ℚ)
    (hlen : 2 ≤ data.length)
    (h : ∀ i, (hi : i < data.length) → (data.get ⟨i, hi⟩).2 = m0 * (i : ℚ) + b) :
    calculateLinearRegression data = some data := by
  have hn0 : (data.length : ℚ) ≠ 0 := Nat.cast_ne_zero.mpr (by omega)
  have hys : data.map Prod.snd = (regXs data.length).map (fun x => m0 * x + b) := by
    apply List.ext_getElem
    · simp [regXs_length]
    · intro i h1 h2
      simp only [List.getElem_map, regXs, List.getElem_range]
      exact h i (by simpa using h1)
  have hymean : (data.map Prod.snd).sum / (data.length : ℚ) =
      m0 * regXMean data.length + b := by
    rw [hys, sum_map_affine, regXs_length, regXMean]
    field_simp
    ring
  have hymean3 : ((regXs data.length).map (fun x => m0 * x + b)).sum / (data.length : ℚ) =
      m0 * regXMean data.length + b := by
    rw [sum_map_affine, regXs_length, regXMean]
    field_simp
    ring
  have hnum : (((regXs data.length).zip (data.map Prod.snd)).map
      (fun p => (p.1 - regXMean data.length) *
        (p.2 - (data.map Prod.snd).sum / (data.length : ℚ)))).sum =
      m0 * regDen data.length := by
    rw [hys, zip_self_map, List.map_map, hymean3, regDen]
    rw [← List.sum_map_mul_left]
    congr 1
    apply List.map_congr_left
    intro x _
    simp only [Function.comp_apply]
    ring
  rw [calculateLinearRegression, if_neg (by omega)]
  simp only []
  rw [hnum]
  have hslope : m0 * regDen data.length / regDen data.length = m0 := by
    rw [mul_div_assoc, div_self (regDen_ne_zero data.length hlen), mul_one]
  rw [hslope, hymean]
  congr 1
  apply List.ext_getElem
  · rw [List.length_map, List.length_zip, regXs_length]
    omega
  · intro i h1 h2
    simp only [List.getElem_map, List.getElem_zip, regXs, List.getElem_range]
    have hd := h i h2
    rw [List.get_eq_getElem] at hd
    refine Prod.ext rfl ?_
    simp only []
    rw [hd]
    ring

/-- C8 witness: the two points (0, 3) and (1, 7) lie on the line 4 · i + 3 and
come back unchanged. -/
theorem calculateLinearRegression_linear_fixed_witness :
    calculateLinearRegression [("a", (3 : ℚ)), ("b", (7 : ℚ))] =
      some [("a", (3 : ℚ)), ("b", (7 : ℚ))] :=
  calculateLinearRegression_linear_fixed [("a", (3 : ℚ)), ("b", (7 : ℚ))] 4 3
    (by decide)
    (by
      intro i hi
      have hi2 : i < 2 := by simpa using hi
      interval_cases i <;> norm_num [List.get])

/-- C3 counterexample: in live mode, selecting an organization and then a
supplier leaves both the supplier and the organization selected, because the
supplier-change handler does not clear supplierOrganizationId. -/
theorem filter_mutual_exclusivity_counterexample :
    (runFilterOps [FilterOp.orgChange "org1", FilterOp.supplierChange "sup1"]
      (FilterState.mk 0 0 false none none)).supplierId = some "sup1" ∧
    (runFilterOps [FilterOp.orgChange "org1", FilterOp.supplierChange "sup1"]
      (FilterState.mk 0 0 false none none)).supplierOrganizationId = some "org1" := by
  constructor <;>
    simp [runFilterOps, applyFilterOp, handleOrganizationChange, handleSupplierChange]

/-- C3 amended: the organization-change handler clears the supplier selection,
but the supplier-change handler leaves the organization selection unchanged,
so after an organization change followed by a supplier change both are set. -/
theorem filter_handlers_one_sided_clearing (f : FilterState) (v : String) :
    (handleOrganizationChange v f).supplierId = none ∧
    (handleSupplierChange v f).supplierOrganizationId = f.supplierOrganizationId ∧
    (handleSupplierChange v f).supplierId = (if v = "" then none else some v) :=
  ⟨rfl, rfl, rfl⟩

/- applyStaticOrg only ever rewrites the organization slice fields. -/
theorem applyStaticOrg_metadata (oid : String) (st : StaticData) :
    (applyStaticOrg oid st).metadata = st.metadata := by
  unfold applyStaticOrg
  repeat' split
  all_goals rfl

theorem applyStaticOrg_fullPayload (oid : String) (st : StaticData) :
    (applyStaticOrg oid st).fullPayload = st.fullPayload := by
  unfold applyStaticOrg
  repeat' split
  all_goals rfl

theorem applyStaticOrg_organization_of_mem (oid : String) (st : StaticData)
    (fp : Dashboard) (m : List (String × OrgBundle)) (slice : OrgBundle)
    (hfp : st.fullPayload = some fp) (hby : fp.by_org = some m)
    (hs : alookup m oid = some slice) :
    (applyStaticOrg oid st).organization = some slice.organization := by
  simp [applyStaticOrg, hfp, hby, hs]

theorem selectStaticOrg_metadata (orgId : Option String) (st : StaticData) :
    (selectStaticOrg orgId st).metadata = st.metadata := by
  cases orgId with
  | none => rfl
  | some oid => exact applyStaticOrg_metadata oid st

theorem selectStaticOrg_fullPayload (orgId : Option String) (st : StaticData) :
    (selectStaticOrg orgId st).fullPayload = st.fullPayload := by
  cases orgId with
  | none => rfl
  | some oid => exact applyStaticOrg_fullPayload oid st

/- Evaluation lemmas for loadStaticData. -/

theorem loadStaticData_loaded (env : FetchEnv) (saved : Option String)
    (st : StaticData) (hl : isLoaded st) :
    loadStaticData env saved st = (st, none, false) := by
  rw [loadStaticData, if_pos hl]

theorem loadStaticData_fresh_fetch_error (env : FetchEnv) (saved : Option String)
    (st : StaticData) (e : String) (hl : ¬ isLoaded st)
    (hfd : fetchDashboardJson env = .error e) :
    loadStaticData env saved st = (st, some e, true) := by
  rw [loadStaticData, if_neg hl, hfd]

theorem loadStaticData_fresh_metadata_error (env : FetchEnv) (saved : Option String)
    (st : StaticData) (dd : Dashboard) (e : String) (hl : ¬ isLoaded st)
    (hfd : fetchDashboardJson env = .ok dd) (hmd : env.metadataJson = .error e) :
    loadStaticData env saved st = (st, some e, true) := by
  rw [loadStaticData, if_neg hl, hfd, hmd]

theorem loadStaticData_fresh_ok_no_error (env : FetchEnv) (saved : Option String)
    (st : StaticData) (dd : Dashboard) (md : Metadata) (hl : ¬ isLoaded st)
    (hfd : fetchDashboardJson env = .ok dd) (hmd : env.metadataJson = .ok md) :
    (loadStaticData env saved st).2.1 = none := by
  rw [loadStaticData, if_neg hl, hfd, hmd]
  repeat' split
  all_goals simp_all

theorem loadStaticData_fresh_ok_fetched (env : FetchEnv) (saved : Option String)
    (st : StaticData) (dd : Dashboard) (md : Metadata) (hl : ¬ isLoaded st)
    (hfd : fetchDashboardJson env = .ok dd) (hmd : env.metadataJson = .ok md) :
    (loadStaticData env saved st).2.2 = true := by
  rw [loadStaticData, if_neg hl, hfd, hmd]
  repeat' split
  all_goals simp_all

theorem loadStaticData_fresh_ok_metadata (env : FetchEnv) (saved : Option String)
    (st : StaticData) (dd : Dashboard) (md : Metadata) (hl : ¬ isLoaded st)
    (hfd : fetchDashboardJson env = .ok dd) (hmd : env.metadataJson = .ok md) :
    (loadStaticData env saved st).1.metadata = some md := by
  rw [loadStaticData, if_neg hl, hfd, hmd]
  repeat' split
  all_goals simp_all [selectStaticOrg_metadata]

theorem loadStaticData_fresh_ok_fullPayload (env : FetchEnv) (saved : Option String)
    (st : StaticData) (dd : Dashboard) (md : Metadata) (hl : ¬ isLoaded st)
    (hfd : fetchDashboardJson env = .ok dd) (hmd : env.metadataJson = .ok md)
    (hby : dd.by_org.isSome) :
    (loadStaticData env saved st).1.fullPayload = some dd := by
  rw [loadStaticData, if_neg hl, hfd, hmd]
  repeat' split
  all_goals simp_all [selectStaticOrg_fullPayload]

theorem loadStaticData_fresh_ok_organization (env : FetchEnv) (saved : Option String)
    (st : StaticData) (dd : Dashboard) (md : Metadata) (org : OrgData)
    (hl : ¬ isLoaded st)
    (hfd : fetchDashboardJson env = .ok dd) (hmd : env.metadataJson = .ok md)
    (hby : dd.by_org = none) (horg : dd.organization = some org) :
    (loadStaticData env saved st).1.organization = some org := by
  rw [loadStaticData, if_neg hl, hfd, hmd]
  repeat' split
  all_goals simp_all

/-- C4: a static snapshot load is all-or-nothing: whenever it reports an
error the cache is returned untouched; when neither the gzipped nor the plain
bundle is fetchable a fresh load reports an error rather than succeeding with
empty data; and a successful fresh load installs the fetched metadata and, for
a multi-org payload, the full fetched bundle. -/
theorem loadStaticData_all_or_nothing (env : FetchEnv) (saved : Option String)
    (st : StaticData) :
    ((loadStaticData env saved st).2.1.isSome → (loadStaticData env saved st).1 = st) ∧
    (¬ isLoaded st → env.gz = none → env.json = none →
      (loadStaticData env saved st).2.1.isSome) ∧
    (¬ isLoaded st → (loadStaticData env saved st).2.1 = none →
      ∃ dd md, fetchDashboardJson env = .ok dd ∧ env.metadataJson = .ok md ∧
        (loadStaticData env saved st).1.metadata = some md ∧
        (dd.by_org.isSome → (loadStaticData env saved st).1.fullPayload = some dd)) := by
  by_cases hl : isLoaded st
  · exact ⟨fun _ => by rw [loadStaticData_loaded env saved st hl],
      fun h => absurd hl h, fun h => absurd hl h⟩
  · rcases hfd : fetchDashboardJson env with e | dd
    · refine ⟨?_, ?_, ?_⟩
      · intro _
        rw [loadStaticData_fresh_fetch_error env saved st e hl hfd]
      · intro _ _ _
        rw [loadStaticData_fresh_fetch_error env saved st e hl hfd]
        rfl
      · intro _ herr
        rw [loadStaticData_fresh_fetch_error env saved st e hl hfd] at herr
        exact absurd herr (by simp)
    · rcases hmd : env.metadataJson with e2 | md
      · refine ⟨?_, ?_, ?_⟩
        · intro _
          rw [loadStaticData_fresh_metadata_error env saved st dd e2 hl hfd hmd]
        · intro _ _ _
          rw [loadStaticData_fresh_metadata_error env saved st dd e2 hl hfd hmd]
          rfl
        · intro _ herr
          rw [loadStaticData_fresh_metadata_error env saved st dd e2 hl hfd hmd] at herr
          exact absurd herr (by simp)
      · refine ⟨?_, ?_, ?_⟩
        · intro herr
          rw [loadStaticData_fresh_ok_no_error env saved st dd md hl hfd hmd] at herr
          exact absurd herr (by simp)
        · intro _ hgz hjson
          rw [fetchDashboardJson, hgz, hjson] at hfd
          exact absurd hfd (by simp)
        · intro _ _
          exact ⟨dd, md, rfl, rfl,
            loadStaticData_fresh_ok_metadata env saved st dd md hl hfd hmd,
            fun hby => loadStaticData_fresh_ok_fullPayload env saved st dd md hl hfd hmd hby⟩

/-- C4 witness: with both bundle responses unavailable a fresh load reports an
error and returns the cache unchanged. -/
theorem loadStaticData_all_or_nothing_witness :
    ¬ isLoaded initialStaticData ∧
    (loadStaticData (FetchEnv.mk none none (Except.error "boom")) none
      initialStaticData).2.1.isSome ∧
    (loadStaticData (FetchEnv.mk none none (Except.error "boom")) none
      initialStaticData).1 = initialStaticData := by
  have hnl : ¬ isLoaded initialStaticData := by
    simp [isLoaded, initialStaticData]
  have herr := (loadStaticData_all_or_nothing (FetchEnv.mk none none (Except.error "boom"))
    none initialStaticData).2.1 hnl rfl rfl
  exact ⟨hnl, herr,
    (loadStaticData_all_or_nothing (FetchEnv.mk none none (Except.error "boom"))
      none initialStaticData).1 herr⟩

theorem filterBySupplier_nil {T : Type} (sidOf : T → Option String) (sid : Option String) :
    filterBySupplier sidOf [] sid = [] := by
  cases sid <;> rfl

/-- C6: the static facade functions resolve to an empty collection and
zero-valued rollups when the loaded snapshot lacks the relevant optional
metric section, instead of failing. -/
theorem fetchStatic_missing_sections (st : StaticData) :
    (st.organization.bind (fun o => o.volume_by_day) = none →
      fetchFaxVolumeStatic st = FaxVolumeResponse.mk [] 0 "day") ∧
    (st.currentSupplierId = none → st.organization.bind (fun o => o.pages) = none →
      fetchPagesStatsStatic st = PagesStatsResponse.mk 0 0) ∧
    (st.organization.bind (fun o => o.cycle_time.bind (fun c => c.state_distribution)) = none →
      fetchStateDistributionStatic st = StateDistributionResponse.mk [] 0) := by
  refine ⟨?_, ?_, ?_⟩
  · intro h
    rw [fetchFaxVolumeStatic]
    simp only [h, Option.getD_none]
    rw [filterBySupplier_nil]
    simp [aggregateVolumeByDate, groupFold, List.mergeSort_nil]
  · intro h1 h2
    rw [fetchPagesStatsStatic]
    simp [h1, h2]
  · intro h
    rw [fetchStateDistributionStatic, h]

/-- C6 witness: a fresh empty snapshot state lacks all three sections and every
facade yields the empty or zero response. -/
theorem fetchStatic_missing_sections_witness :
    fetchFaxVolumeStatic initialStaticData = FaxVolumeResponse.mk [] 0 "day" ∧
    fetchPagesStatsStatic initialStaticData = PagesStatsResponse.mk 0 0 ∧
    fetchStateDistributionStatic initialStaticData = StateDistributionResponse.mk [] 0 :=
  ⟨(fetchStatic_missing_sections initialStaticData).1 rfl,
   (fetchStatic_missing_sections initialStaticData).2.1 rfl rfl,
   (fetchStatic_missing_sections initialStaticData).2.2 rfl⟩

/- Switching organizations preserves loadedness of the cache. -/
theorem isLoaded_applyStaticOrg (oid : String) (st : StaticData) (h : isLoaded st) :
    isLoaded (applyStaticOrg oid st) := by
  unfold applyStaticOrg
  repeat' split
  all_goals simp_all [isLoaded]

theorem isLoaded_setStaticOrganizationId (o : Option String) (st : StaticData)
    (h : isLoaded st) : isLoaded (setStaticOrganizationId o st) := by
  cases o with
  | none => exact h
  | some oid => exact isLoaded_applyStaticOrg oid st h

/- Once the cache is loaded, no later load or switch fetches again. -/
theorem runStaticOps_loaded (env : FetchEnv) (ops : List StaticOp) :
    ∀ (w : World), isLoaded w.data →
      (runStaticOps env ops w).fetches = w.fetches ∧
      isLoaded (runStaticOps env ops w).data := by
  induction ops with
  | nil => exact fun w h => ⟨rfl, h⟩
  | cons op rest ih =>
    intro w h
    rw [runStaticOps, List.foldl_cons]
    have hstep : (runStaticOp env w op).fetches = w.fetches ∧
        isLoaded (runStaticOp env w op).data := by
      cases op with
      | load =>
        rw [runStaticOp]
        simp [loadStaticData_loaded env w.storage w.data h, h]
      | switchOrg o =>
        exact ⟨rfl, isLoaded_setStaticOrganizationId o w.data h⟩
    have hrest := ih (runStaticOp env w op) hstep.2
    rw [runStaticOps] at hrest
    exact ⟨hrest.1.trans hstep.1, hrest.2⟩

/-- C5: starting from an empty cache, a successful load fetches the bundle
exactly once and any further sequence of loads and organization switches
performs no additional fetch; an explicit switch to an organization present in
the loaded payload re-derives the active slice in memory, with no fetch. -/
theorem static_loader_single_fetch (env : FetchEnv) (s0 : Option String)
    (ops : List StaticOp) (dd : Dashboard) (md : Metadata)
    (hfd : fetchDashboardJson env = .ok dd) (hmd : env.metadataJson = .ok md)
    (hdd : dd.by_org.isSome ∨ (dd.by_org = none ∧ dd.organization.isSome)) :
    (runStaticOps env ops
      (runStaticOp env (World.mk initialStaticData s0 0) .load)).fetches = 1 ∧
    (∀ (w : World) (oid : String) (fp : Dashboard) (m : List (String × OrgBundle))
        (slice : OrgBundle),
      w.data.fullPayload = some fp → fp.by_org = some m → alookup m oid = some slice →
      (runStaticOp env w (.switchOrg (some oid))).data.organization =
          some slice.organization ∧
      (runStaticOp env w (.switchOrg (some oid))).fetches = w.fetches) := by
  constructor
  · have hnl : ¬ isLoaded initialStaticData := by
      simp [isLoaded, initialStaticData]
    have hw1f : (runStaticOp env (World.mk initialStaticData s0 0) .load).fetches = 1 := by
      rw [runStaticOp]
      simp [loadStaticData_fresh_ok_fetched env s0 initialStaticData dd md hnl hfd hmd]
    have hw1d : (runStaticOp env (World.mk initialStaticData s0 0) .load).data =
        (loadStaticData env s0 initialStaticData).1 := rfl
    have hl1 : isLoaded (runStaticOp env (World.mk initialStaticData s0 0) .load).data := by
      rw [hw1d]
      constructor
      · rw [loadStaticData_fresh_ok_metadata env s0 initialStaticData dd md hnl hfd hmd]
        rfl
      · rcases hdd with hby | ⟨hby, horg⟩
        · right
          rw [loadStaticData_fresh_ok_fullPayload env s0 initialStaticData dd md hnl hfd hmd hby]
          rfl
        · left
          obtain ⟨org, horg2⟩ := Option.isSome_iff_exists.mp horg
          rw [loadStaticData_fresh_ok_organization env s0 initialStaticData dd md org hnl
            hfd hmd hby horg2]
          rfl
    have := runStaticOps_loaded env ops _ hl1
    rw [this.1, hw1f]
  · intro w oid fp m slice hfp hby hs
    refine ⟨?_, rfl⟩
    rw [runStaticOp]
    exact applyStaticOrg_organization_of_mem oid w.data fp m slice hfp hby hs

/-- C5 witness: a load followed by an organization switch and another load
issues exactly one fetch, and a switch on a loaded multi-org world activates
the requested slice without fetching. -/
theorem static_loader_single_fetch_witness :
    (runStaticOps
      (FetchEnv.mk
        (some (Except.ok (Dashboard.mk
          (some [("o1", OrgBundle.mk (OrgData.mk none none none) [] [])]) none none none)))
        none (Except.ok (Metadata.mk (some [OrgMeta.mk "o1"]))))
      [StaticOp.switchOrg (some "o1"), StaticOp.load]
      (runStaticOp
        (FetchEnv.mk
          (some (Except.ok (Dashboard.mk
            (some [("o1", OrgBundle.mk (OrgData.mk none none none) [] [])]) none none none)))
          none (Except.ok (Metadata.mk (some [OrgMeta.mk "o1"]))))
        (World.mk initialStaticData none 0) .load)).fetches = 1 ∧
    (runStaticOp
      (FetchEnv.mk
        (some (Except.ok (Dashboard.mk
          (some [("o1", OrgBundle.mk (OrgData.mk none none none) [] [])]) none none none)))
        none (Except.ok (Metadata.mk (some [OrgMeta.mk "o1"]))))
      (World.mk
        (StaticData.mk none none none (some (Metadata.mk (some [OrgMeta.mk "o1"]))) none
          (some (Dashboard.mk
            (some [("o1", OrgBundle.mk (OrgData.mk none none none) [] [])]) none none none))
          none)
        none 5)
      (.switchOrg (some "o1"))).data.organization = some (OrgData.mk none none none) := by
  constructor
  · exact (static_loader_single_fetch
      (FetchEnv.mk
        (some (Except.ok (Dashboard.mk
          (some [("o1", OrgBundle.mk (OrgData.mk none none none) [] [])]) none none none)))
        none (Except.ok (Metadata.mk (some [OrgMeta.mk "o1"]))))
      none [StaticOp.switchOrg (some "o1"), StaticOp.load]
      (Dashboard.mk (some [("o1", OrgBundle.mk (OrgData.mk none none none) [] [])])
        none none none)
      (Metadata.mk (some [OrgMeta.mk "o1"])) rfl rfl (Or.inl rfl)).1
  · exact ((static_loader_single_fetch
      (FetchEnv.mk
        (some (Except.ok (Dashboard.mk
          (some [("o1", OrgBundle.mk (OrgData.mk none none none) [] [])]) none none none)))
        none (Except.ok (Metadata.mk (some [OrgMeta.mk "o1"]))))
      none []
      (Dashboard.mk (some [("o1", OrgBundle.mk (OrgData.mk none none none) [] [])])
        none none none)
      (Metadata.mk (some [OrgMeta.mk "o1"])) rfl rfl (Or.inl rfl)).2
      (World.mk
        (StaticData.mk none none none (some (Metadata.mk (some [OrgMeta.mk "o1"]))) none
          (some (Dashboard.mk
            (some [("o1", OrgBundle.mk (OrgData.mk none none none) [] [])]) none none none))
          none)
        none 5)
      "o1"
      (Dashboard.mk (some [("o1", OrgBundle.mk (OrgData.mk none none none) [] [])])
        none none none)
      [("o1", OrgBundle.mk (OrgData.mk none none none) [] [])]
      (OrgBundle.mk (OrgData.mk none none none) [] [])
      rfl rfl (by simp [alookup])).1

/- Summing two-decimal roundings moves the total by at most 1/200 per entry. -/
theorem sum_round2_near (l : List ℚ) :
    |(l.map round2).sum - l.sum| ≤ (l.length : ℚ) / 200 := by
  induction l with
  | nil => simp
  | cons x rest ih =>
    simp only [List.map_cons, List.sum_cons, List.length_cons]
    have h1 := round2_sub_le x
    have h2 : round2 x + (rest.map round2).sum - (x + rest.sum) =
        (round2 x - x) + ((rest.map round2).sum - rest.sum) := by ring
    have h3 := le_trans (abs_add (round2 x - x) ((rest.map round2).sum - rest.sum))
      (add_le_add h1 ih)
    rw [h2]
    push_cast
    linarith

/-- C1 amended: under the weighted-mean rule a grouping key whose total weight
is 0 yields measure 0 for the per-date cycle-time average and the overall
cycle-time rollup, while the productivity median yields no value (the
median_minutes field is left undefined) rather than 0; no division is
performed in any of these cases. -/
theorem weighted_mean_zero_guard :
    (∀ (data : List CycleRow) (o : CycleOut), o ∈ aggregateCycleTimeByDate data →
      ((data.filter (fun r => r.date = o.date)).map (fun r => r.count)).sum = 0 →
      o.avg_minutes = 0) ∧
    (∀ (data : List CycleOut), (data.map (fun r => r.count)).sum = 0 →
      computeOverallAvg data = 0) ∧
    (∀ (data : List ProdRow) (o : ProdOut), o ∈ aggregateProductivityByUser data →
      ((data.filter (fun r => r.user_id = o.user_id)).map
        (fun r => match r.median_minutes with
          | some _ => r.total_processed
          | none => 0)).sum = 0 →
      o.median_minutes = none) := by
  refine ⟨?_, ?_, ?_⟩
  · intro data o ho hsum
    rw [aggregateCycleTimeByDate, List.mem_mergeSort] at ho
    obtain ⟨p, hp, heq⟩ := List.mem_map.mp ho
    obtain ⟨k, v⟩ := p
    have hal := groupFold_mem_alookup _ _ _ data k v hp
    have hcount := groupFold_field_sum (fun r => r.date)
      (fun r => CTAcc.mk (r.avg_minutes * r.count) r.count)
      (fun a r => CTAcc.mk (a.weightedSum + r.avg_minutes * r.count) (a.totalCount + r.count))
      (fun a => a.totalCount) (fun r => r.count) (fun r => rfl) (fun a r => rfl) data k v hal
    subst heq
    have htc : v.totalCount = 0 := hcount.trans hsum
    simp [htc]
  · intro data hsum
    simp [computeOverallAvg, hsum]
  · intro data o ho hsum
    rw [aggregateProductivityByUser, List.mem_mergeSort] at ho
    obtain ⟨p, hp, heq⟩ := List.mem_map.mp ho
    obtain ⟨k, v⟩ := p
    have hal := groupFold_mem_alookup _ _ _ data k v hp
    have hcount := groupFold_field_sum (fun r => r.user_id) prodInit prodUpd
      (fun a => a.medianCount)
      (fun r => match r.median_minutes with
        | some _ => r.total_processed
        | none => 0)
      (fun r => rfl) (fun a r => rfl) data k v hal
    subst heq
    have htc : v.medianCount = 0 := hcount.trans hsum
    simp [htc]

/-- C1 counterexample: a productivity row whose weight (total_processed) is 0
but whose median is present aggregates to an undefined median, not to the
measure 0 the claim requires. -/
theorem weighted_mean_zero_guard_counterexample :
    aggregateProductivityByUser [ProdRow.mk "u1" "n" 0 0 (some 5) none] =
      [ProdOut.mk "u1" "n" 0 0 none] ∧
    (none : Option ℚ) ≠ some (0 : ℚ) := by
  constructor
  · norm_num [aggregateProductivityByUser, groupFold, gstep, alookup, prodInit, prodUpd,
      List.mergeSort_singleton, round2, jsRound]
  · simp

/-- C1 witness: a date whose rows all have zero count yields average 0, an
aggregated collection of total weight 0 yields overall average 0, and the
zero-weight productivity median stays undefined. -/
theorem weighted_mean_zero_guard_witness :
    (CycleOut.mk "d" 0 0 ∈ aggregateCycleTimeByDate [CycleRow.mk "d" 5 0 none]) ∧
    (CycleOut.mk "d" 0 0).avg_minutes = 0 ∧
    computeOverallAvg [CycleOut.mk "d" 5 0] = 0 ∧
    (ProdOut.mk "u1" "n" 0 0 none).median_minutes = none := by
  have hmem : CycleOut.mk "d" 0 0 ∈ aggregateCycleTimeByDate [CycleRow.mk "d" 5 0 none] := by
    norm_num [aggregateCycleTimeByDate, groupFold, gstep, alookup, List.mergeSort_singleton]
  refine ⟨hmem, ?_, ?_, ?_⟩
  · exact (weighted_mean_zero_guard).1 [CycleRow.mk "d" 5 0 none] (CycleOut.mk "d" 0 0)
      hmem (by norm_num)
  · exact (weighted_mean_zero_guard).2.1 [CycleOut.mk "d" 5 0] (by norm_num)
  · refine (weighted_mean_zero_guard).2.2 [ProdRow.mk "u1" "n" 0 0 (some 5) none]
      (ProdOut.mk "u1" "n" 0 0 none) ?_ (by norm_num)
    norm_num [aggregateProductivityByUser, groupFold, gstep, alookup, prodInit, prodUpd,
      List.mergeSort_singleton, round2, jsRound]

/- Named accumulation map of aggregateCategoryDistribution. -/
def byCatD (data : List CatRow) : List (String × ℚ) :=
  groupFold (fun r => r.category) (fun r => r.count) (fun a r => a + r.count) data

theorem aggregateCategoryDistribution_eq (data : List CatRow) :
    aggregateCategoryDistribution data = (byCatD data).map
      (fun p => CatOut.mk p.1 p.2
        (if ((byCatD data).map (fun q => q.2)).sum > 0 then
          round2 (p.2 / ((byCatD data).map (fun q => q.2)).sum * 100) else 0)) := rfl

/-- C9 amended: category-distribution output percentages sum to 100 within
1/200 per output row whenever the summed count total is positive; when the
total is 0 every output percentage is 0; and the empty input yields the empty
output. (The fixed 0.1 tolerance of the claim holds only for up to 20
categories, and a non-empty input with total 0 yields percentage sum 0.) -/
theorem aggregateCategoryDistribution_sum (data : List CatRow) :
    (data = [] → aggregateCategoryDistribution data = []) ∧
    (((aggregateCategoryDistribution data).map (fun o => o.count)).sum = 0 →
      ∀ o ∈ aggregateCategoryDistribution data, o.percentage = 0) ∧
    (0 < ((aggregateCategoryDistribution data).map (fun o => o.count)).sum →
      |((aggregateCategoryDistribution data).map (fun o => o.percentage)).sum - 100| ≤
        ((aggregateCategoryDistribution data).length : ℚ) / 200) := by
  have hid : ((aggregateCategoryDistribution data).map (fun o => o.count)).sum
      = ((byCatD data).map (fun q => q.2)).sum := by
    rw [aggregateCategoryDistribution_eq, List.map_map]
    rfl
  refine ⟨?_, ?_, ?_⟩
  · intro h
    subst h
    rfl
  · intro h0 o ho
    rw [hid] at h0
    rw [aggregateCategoryDistribution_eq] at ho
    obtain ⟨p, hp, heq⟩ := List.mem_map.mp ho
    subst heq
    simp [h0]
  · intro hpos
    rw [hid] at hpos
    have hpct : (aggregateCategoryDistribution data).map (fun o => o.percentage) =
        ((byCatD data).map
          (fun p => p.2 / ((byCatD data).map (fun q => q.2)).sum * 100)).map round2 := by
      rw [aggregateCategoryDistribution_eq, List.map_map, List.map_map]
      apply List.map_congr_left
      intro p _
      simp [hpos]
    have hne := ne_of_gt hpos
    have hexact : (((byCatD data).map
        (fun p => p.2 / ((byCatD data).map (fun q => q.2)).sum * 100))).sum = 100 := by
      have h1 : (((byCatD data).map
          (fun p => p.2 / ((byCatD data).map (fun q => q.2)).sum * 100))).sum =
          (((byCatD data).map
            (fun p => p.2 * (100 / ((byCatD data).map (fun q => q.2)).sum)))).sum := by
        congr 1
        apply List.map_congr_left
        intro p _
        ring
      rw [h1, List.sum_map_mul_right]
      field_simp
    have hnear := sum_round2_near ((byCatD data).map
      (fun p => p.2 / ((byCatD data).map (fun q => q.2)).sum * 100))
    rw [hexact, List.length_map] at hnear
    rw [hpct]
    have hlen : (aggregateCategoryDistribution data).length = (byCatD data).length := by
      rw [aggregateCategoryDistribution_eq, List.length_map]
    rw [hlen]
    exact hnear

/-- C9 counterexample: a non-empty input whose only count is 0 yields
percentage sum 0, far from 100; and with 22 categories chosen to round half
up the percentage sum is 100.11, missing the 0.1 tolerance as well. -/
theorem aggregateCategoryDistribution_sum_counterexample :
    ([CatRow.mk "a" 0 0 none] ≠ []) ∧
    ¬ (|((aggregateCategoryDistribution [CatRow.mk "a" 0 0 none]).map
        (fun o => o.percentage)).sum - 100| ≤ 1/10) ∧
    ¬ (|((aggregateCategoryDistribution
        [CatRow.mk "c01" 8 0 none, CatRow.mk "c02" 8 0 none, CatRow.mk "c03" 8 0 none,
         CatRow.mk "c04" 8 0 none, CatRow.mk "c05" 8 0 none, CatRow.mk "c06" 8 0 none,
         CatRow.mk "c07" 8 0 none, CatRow.mk "c08" 8 0 none, CatRow.mk "c09" 8 0 none,
         CatRow.mk "c10" 8 0 none, CatRow.mk "c11" 8 0 none, CatRow.mk "c12" 8 0 none,
         CatRow.mk "c13" 8 0 none, CatRow.mk "c14" 8 0 none, CatRow.mk "c15" 8 0 none,
         CatRow.mk "c16" 8 0 none, CatRow.mk "c17" 8 0 none, CatRow.mk "c18" 8 0 none,
         CatRow.mk "c19" 8 0 none, CatRow.mk "c20" 8 0 none, CatRow.mk "c21" 8 0 none,
         CatRow.mk "big" 31832 0 none]).map
        (fun o => o.percentage)).sum - 100| ≤ 1/10) := by
  refine ⟨by simp, ?_, ?_⟩
  · norm_num [aggregateCategoryDistribution, groupFold, gstep, alookup, round2, jsRound]
  · simp only [aggregateCategoryDistribution, groupFold, gstep, alookup, List.foldl_cons,
      List.foldl_nil, List.map_cons, List.map_nil, List.sum_cons, List.sum_nil,
      String.reduceEq, reduceIte, List.append_nil, List.cons_append, List.nil_append]
    rw [abs_le]
    norm_num [round2, jsRound]

/-- C9 witness: the empty input aggregates to the empty output, and a single
positive-count category sums to exactly 100. -/
theorem aggregateCategoryDistribution_sum_witness :
    aggregateCategoryDistribution ([] : List CatRow) = [] ∧
    0 < ((aggregateCategoryDistribution [CatRow.mk "x" 1 0 none]).map
      (fun o => o.count)).sum ∧
    |((aggregateCategoryDistribution [CatRow.mk "x" 1 0 none]).map
        (fun o => o.percentage)).sum - 100| ≤
      ((aggregateCategoryDistribution [CatRow.mk "x" 1 0 none]).length : ℚ) / 200 := by
  have hpos : 0 < ((aggregateCategoryDistribution [CatRow.mk "x" 1 0 none]).map
      (fun o => o.count)).sum := by
    norm_num [aggregateCategoryDistribution, groupFold, gstep, alookup]
  exact ⟨(aggregateCategoryDistribution_sum []).1 rfl, hpos,
    (aggregateCategoryDistribution_sum [CatRow.mk "x" 1 0 none]).2.2 hpos⟩

/- Sum over a filtered list as a sum of guarded terms, and monotonicity of
   guarded sums of nonnegative terms under predicate implication. -/

theorem sum_filter_eq_sum_if {α : Type} (l : List α) (p : α → Prop) [DecidablePred p]
    (f : α → ℚ) :
    ((l.filter (fun a => p a)).map f).sum = (l.map (fun a => if p a then f a else 0)).sum := by
  induction l with
  | nil => rfl
  | cons x rest ih =>
    by_cases h : p x <;> simp [List.filter_cons, h, ih]

theorem sum_if_mono {α : Type} (l : List α) (p q : α → Prop) [DecidablePred p]
    [DecidablePred q] (f : α → ℚ) (hf : ∀ a ∈ l, 0 ≤ f a) (hpq : ∀ a ∈ l, p a → q a) :
    (l.map (fun a => if p a then f a else 0)).sum ≤
      (l.map (fun a => if q a then f a else 0)).sum := by
  induction l with
  | nil => simp
  | cons x rest ih =>
    simp only [List.map_cons, List.sum_cons]
    have hx : (if p x then f x else 0) ≤ (if q x then f x else 0) := by
      by_cases hp : p x
      · rw [if_pos hp, if_pos (hpq x (List.mem_cons_self x rest) hp)]
      · rw [if_neg hp]
        by_cases hq : q x
        · rw [if_pos hq]
          exact hf x (List.mem_cons_self x rest)
        · rw [if_neg hq]
    exact add_le_add hx (ih (fun a ha => hf a (List.mem_cons_of_mem x ha))
      (fun a ha => hpq a (List.mem_cons_of_mem x ha)))

theorem sum_if_nonneg {α : Type} (l : List α) (p : α → Prop) [DecidablePred p]
    (f : α → ℚ) (hf : ∀ a ∈ l, 0 ≤ f a) :
    0 ≤ (l.map (fun a => if p a then f a else 0)).sum := by
  apply List.sum_nonneg
  intro x hx
  obtain ⟨a, ha, rfl⟩ := List.mem_map.mp hx
  by_cases h : p a
  · rw [if_pos h]
    exact hf a ha
  · rw [if_neg h]

theorem alookup_mem {A : Type} (m : List (String × A)) (k : String) (v : A)
    (h : alookup m k = some v) : (k, v) ∈ m := by
  induction m with
  | nil => simp [alookup] at h
  | cons p rest ih =>
    obtain ⟨k0, v0⟩ := p
    by_cases hk : k0 = k
    · subst hk
      rw [alookup, if_pos rfl] at h
      have hv := Option.some.inj h
      subst hv
      exact List.mem_cons_self _ _
    · rw [alookup, if_neg hk] at h
      exact List.mem_cons_of_mem _ (ih h)

/- Every accumulated entry originates from a first matching row; fields that
   updates leave untouched keep the value the first matching row gave them. -/
theorem groupFold_entry_source {R A : Type} {γ : Type} (key : R → String) (ini : R → A)
    (upd : A → R → A) (g : A → γ) (hupd : ∀ a r, g (upd a r) = g a)
    (rows : List R) (k : String) (v : A) (h : (k, v) ∈ groupFold key ini upd rows) :
    ∃ r ∈ rows, key r = k ∧ g v = g (ini r) := by
  have hal := groupFold_mem_alookup key ini upd rows k v h
  cases hf : rows.filter (fun r => key r = k) with
  | nil =>
    rw [groupFold_alookup, hf] at hal
    exact absurd hal (by simp)
  | cons r0 l =>
    rw [groupFold_alookup_of_filter key ini upd rows k r0 l hf] at hal
    have hv : l.foldl upd (ini r0) = v := Option.some.inj hal
    have hg : ∀ (a : A) (l2 : List R), g (l2.foldl upd a) = g a := by
      intro a l2
      induction l2 generalizing a with
      | nil => rfl
      | cons x xs ih =>
        rw [List.foldl_cons, ih, hupd]
    have hm : r0 ∈ rows.filter (fun r => key r = k) := by
      rw [hf]
      exact List.mem_cons_self r0 l
    have hmf := List.mem_filter.mp hm
    exact ⟨r0, hmf.1, by simpa using hmf.2, by rw [← hv, hg]⟩

/- Per-user running total of the user+category map: the guarded sum of entry
   counts whose stored user_id is the given user. -/
def sumUC (u : String) (m : List (String × CatUserAcc)) : ℚ :=
  (m.map (fun p => if p.2.user_id = u then p.2.count else 0)).sum

theorem sumUC_cons (u : String) (p : String × CatUserAcc)
    (m : List (String × CatUserAcc)) :
    sumUC u (p :: m) = (if p.2.user_id = u then p.2.count else 0) + sumUC u m := by
  simp [sumUC]

theorem sumUC_append_single (u : String) (m : List (String × CatUserAcc))
    (p : String × CatUserAcc) :
    sumUC u (m ++ [p]) = sumUC u m + (if p.2.user_id = u then p.2.count else 0) := by
  simp [sumUC]

theorem sumUC_assocUpd (u q : String) (r : CatUserRow)
    (m : List (String × CatUserAcc)) (a : CatUserAcc) (ha : alookup m q = some a) :
    sumUC u (assocUpd q (fun x => updUC x r) m) =
      sumUC u m + (if a.user_id = u then r.count else 0) := by
  induction m with
  | nil => simp [alookup] at ha
  | cons p rest ih =>
    obtain ⟨k, v⟩ := p
    by_cases hk : k = q
    · subst hk
      rw [alookup, if_pos rfl] at ha
      have hv := Option.some.inj ha
      subst hv
      rw [assocUpd, if_pos rfl, sumUC_cons, sumUC_cons]
      by_cases hu : v.user_id = u <;> (simp [updUC, hu]; try ring)
    · rw [alookup, if_neg hk] at ha
      rw [assocUpd, if_neg hk, sumUC_cons, sumUC_cons, ih ha]
      ring

theorem assocUpd_updUC_user_id (q : String) (r : CatUserRow)
    (m : List (String × CatUserAcc)) (P : String → String → Prop)
    (h : ∀ p ∈ m, P p.1 p.2.user_id) :
    ∀ p ∈ assocUpd q (fun x => updUC x r) m, P p.1 p.2.user_id := by
  induction m with
  | nil => intro p hp; simp [assocUpd] at hp
  | cons p0 rest ih =>
    obtain ⟨k, v⟩ := p0
    intro p hp
    by_cases hk : k = q
    · rw [assocUpd, if_pos hk] at hp
      rcases List.mem_cons.mp hp with h1 | h2
      · subst h1
        exact h (k, v) (List.mem_cons_self _ _)
      · exact h p (List.mem_cons_of_mem _ h2)
    · rw [assocUpd, if_neg hk] at hp
      rcases List.mem_cons.mp hp with h1 | h2
      · subst h1
        exact h (k, v) (List.mem_cons_self _ _)
      · exact ih (fun p2 hp2 => h p2 (List.mem_cons_of_mem _ hp2)) p h2

/- The per-user total of the accumulated map equals the per-user total of the
   rows consumed so far, provided equal keys imply equal users. -/
theorem sumUC_foldl (data : List CatUserRow) (u : String)
    (hinj : ∀ r ∈ data, ∀ s ∈ data, keyUC r = keyUC s → r.user_id = s.user_id) :
    ∀ (rows : List CatUserRow) (m : List (String × CatUserAcc)),
      (∀ r ∈ rows, r ∈ data) →
      (∀ p ∈ m, ∃ r0 ∈ data, keyUC r0 = p.1 ∧ p.2.user_id = r0.user_id) →
      sumUC u (rows.foldl (gstep keyUC iniUC updUC) m) =
        sumUC u m + (rows.map (fun r => if r.user_id = u then r.count else 0)).sum := by
  intro rows
  induction rows with
  | nil =>
    intro m _ _
    simp
  | cons r rest ih =>
    intro m hsub hinv
    rw [List.foldl_cons]
    have hrdata : r ∈ data := hsub r (List.mem_cons_self _ _)
    have hstep : sumUC u (gstep keyUC iniUC updUC m r) =
        sumUC u m + (if r.user_id = u then r.count else 0) := by
      rw [gstep]
      cases ha : alookup m (keyUC r) with
      | some a =>
        obtain ⟨r0, hr0d, hr0k, hr0u⟩ := hinv (keyUC r, a) (alookup_mem m (keyUC r) a ha)
        have hru : a.user_id = r.user_id := by
          rw [hr0u]
          exact hinj r0 hr0d r hrdata hr0k
        rw [sumUC_assocUpd u (keyUC r) r m a ha, hru]
      | none =>
        rw [sumUC_append_single]
        rfl
    have hinv2 : ∀ p ∈ gstep keyUC iniUC updUC m r,
        ∃ r0 ∈ data, keyUC r0 = p.1 ∧ p.2.user_id = r0.user_id := by
      rw [gstep]
      cases ha : alookup m (keyUC r) with
      | some a =>
        exact assocUpd_updUC_user_id (keyUC r) r m
          (fun k uid => ∃ r0 ∈ data, keyUC r0 = k ∧ uid = r0.user_id) hinv
      | none =>
        intro p hp
        rcases List.mem_append.mp hp with h1 | h2
        · exact hinv p h1
        · rw [List.mem_singleton] at h2
          subst h2
          exact ⟨r, hrdata, rfl, rfl⟩
    rw [ih (gstep keyUC iniUC updUC m r) (fun r2 hr2 => hsub r2 (List.mem_cons_of_mem _ hr2))
      hinv2, hstep, List.map_cons, List.sum_cons]
    ring

theorem byUserCat_user_sum (data : List CatUserRow) (u : String)
    (hinj : ∀ r ∈ data, ∀ s ∈ data, keyUC r = keyUC s → r.user_id = s.user_id) :
    sumUC u (byUserCat data) =
      (data.map (fun r => if r.user_id = u then r.count else 0)).sum := by
  have h := sumUC_foldl data u hinj data [] (fun r hr => hr) (by simp)
  rw [byUserCat, groupFold]
  rw [h]
  simp [sumUC]

theorem userTotals_alookup_some (data : List CatUserRow) (u : String) (t : ℚ)
    (h : alookup (userTotals data) u = some t) :
    t = ((data.filter (fun r => r.user_id = u)).map (fun r => r.count)).sum := by
  have h2 := groupFold_field_sum (fun r : CatUserRow => r.user_id)
    (fun r : CatUserRow => r.count) (fun (a : ℚ) r => a + r.count)
    (fun x : ℚ => x) (fun r : CatUserRow => r.count)
    (fun _ => rfl) (fun _ _ => rfl) data u t h
  exact h2

theorem userTotals_alookup_none (data : List CatUserRow) (u : String)
    (h : alookup (userTotals data) u = none) :
    data.filter (fun r => r.user_id = u) = [] :=
  groupFold_alookup_eq_none _ _ _ data u h

/- The JS || 1 denominator in terms of the input rows. -/
theorem userDenom_eq (data : List CatUserRow) (u : String) :
    userDenom data u =
      (if ((data.filter (fun r => r.user_id = u)).map (fun r => r.count)).sum = 0 then 1
       else ((data.filter (fun r => r.user_id = u)).map (fun r => r.count)).sum) := by
  rw [userDenom]
  cases halt : alookup (userTotals data) u with
  | some t =>
    rw [userTotals_alookup_some data u t halt]
  | none =>
    rw [userTotals_alookup_none data u halt]
    simp

/- Each output row carries the percentage computed from its own count and the
   denominator of its own user. -/
theorem aggregateCategoryByUser_pct (data : List CatUserRow) (o : CatUserOut)
    (ho : o ∈ aggregateCategoryByUser data) :
    o.percentage = round2 (o.count / userDenom data o.user_id * 100) := by
  rw [aggregateCategoryByUser, List.mem_mergeSort] at ho
  obtain ⟨p, _, heq⟩ := List.mem_map.mp ho
  subst heq
  rfl

theorem byUserCat_count (data : List CatUserRow) (k : String) (v : CatUserAcc)
    (h : alookup (byUserCat data) k = some v) :
    v.count = ((data.filter (fun r => keyUC r = k)).map (fun r => r.count)).sum :=
  groupFold_field_sum keyUC iniUC updUC (fun a => a.count) (fun r => r.count)
    (fun _ => rfl) (fun _ _ => rfl) data k v h

/-- C10: in category-by-individual aggregation each output percentage is
computed against the summed total of its own user; when that total is positive
the output percentages of that user sum to 100 within 1/200 per row, and when the total
is 0 the denominator defaults to 1 and the percentage is 0, never an undefined
division.  Counts are assumed nonnegative and user+category keys unambiguous
(no user or category contains the ||| separator pattern). -/
theorem aggregateCategoryByUser_per_user (data : List CatUserRow) (u : String)
    (hinj : ∀ r ∈ data, ∀ s ∈ data, keyUC r = keyUC s → r.user_id = s.user_id)
    (hnn : ∀ r ∈ data, 0 ≤ r.count) :
    (∀ o ∈ aggregateCategoryByUser data, o.user_id = u →
      ((data.filter (fun r => r.user_id = u)).map (fun r => r.count)).sum ≠ 0 →
      o.percentage = round2 (o.count /
        ((data.filter (fun r => r.user_id = u)).map (fun r => r.count)).sum * 100)) ∧
    (((data.filter (fun r => r.user_id = u)).map (fun r => r.count)).sum = 0 →
      ∀ o ∈ aggregateCategoryByUser data, o.user_id = u → o.percentage = 0) ∧
    (0 < ((data.filter (fun r => r.user_id = u)).map (fun r => r.count)).sum →
      |(((aggregateCategoryByUser data).filter (fun o => o.user_id = u)).map
          (fun o => o.percentage)).sum - 100| ≤
        (((aggregateCategoryByUser data).filter (fun o => o.user_id = u)).length : ℚ) /
          200) := by
  refine ⟨?_, ?_, ?_⟩
  · intro o ho hou hTn
    rw [aggregateCategoryByUser_pct data o ho, hou, userDenom_eq, if_neg hTn]
  · intro hT0 o ho hou
    rw [aggregateCategoryByUser_pct data o ho, hou, userDenom_eq, if_pos hT0]
    rw [aggregateCategoryByUser, List.mem_mergeSort] at ho
    obtain ⟨p, hp, heq⟩ := List.mem_map.mp ho
    obtain ⟨k, v⟩ := p
    have hvu : v.user_id = u := by
      rw [← hou, ← heq]
    have hal : alookup (byUserCat data) k = some v :=
      groupFold_mem_alookup keyUC iniUC updUC data k v hp
    have hc := byUserCat_count data k v hal
    obtain ⟨r0, hr0d, hr0k, hr0u⟩ := groupFold_entry_source keyUC iniUC updUC
      (fun a => a.user_id) (fun a r => rfl) data k v hp
    have hvc0 : v.count = 0 := by
      have hle : v.count ≤
          ((data.filter (fun r => r.user_id = u)).map (fun r => r.count)).sum := by
        rw [hc, sum_filter_eq_sum_if data (fun r => keyUC r = k) (fun r => r.count),
          sum_filter_eq_sum_if data (fun r => r.user_id = u) (fun r => r.count)]
        apply sum_if_mono data _ _ _ hnn
        intro r hrd hrk
        have h1 := hinj r hrd r0 hr0d (hrk.trans hr0k.symm)
        have hr0u2 : v.user_id = r0.user_id := hr0u
        rw [h1, ← hr0u2, hvu]
      have hge : 0 ≤ v.count := by
        rw [hc, sum_filter_eq_sum_if data (fun r => keyUC r = k) (fun r => r.count)]
        exact sum_if_nonneg data _ _ hnn
      rw [hT0] at hle
      linarith
    have hoc : o.count = v.count := by
      rw [← heq]
    rw [hoc, hvc0]
    norm_num [round2_zero]
  · intro hT
    have hTn : ((data.filter (fun r => r.user_id = u)).map (fun r => r.count)).sum ≠ 0 :=
      ne_of_gt hT
    have hperm : ((aggregateCategoryByUser data).filter (fun o => o.user_id = u)).Perm
        ((((byUserCat data).map
          (fun p => CatUserOut.mk p.2.user_id p.2.user_name p.2.category p.2.count
            (round2 (p.2.count / userDenom data p.2.user_id * 100)))).filter
          (fun o => o.user_id = u))) := by
      rw [aggregateCategoryByUser]
      exact List.Perm.filter _ (List.mergeSort_perm _ _)
    have hfm : (((byUserCat data).map
        (fun p => CatUserOut.mk p.2.user_id p.2.user_name p.2.category p.2.count
          (round2 (p.2.count / userDenom data p.2.user_id * 100)))).filter
        (fun o => o.user_id = u)) =
        (((byUserCat data).filter (fun p => p.2.user_id = u)).map
          (fun p => CatUserOut.mk p.2.user_id p.2.user_name p.2.category p.2.count
            (round2 (p.2.count / userDenom data p.2.user_id * 100)))) := by
      rw [List.filter_map]
      rfl
    have hsum : (((aggregateCategoryByUser data).filter (fun o => o.user_id = u)).map
        (fun o => o.percentage)).sum =
        ((((byUserCat data).filter (fun p => p.2.user_id = u)).map
          (fun p => p.2.count /
            ((data.filter (fun r => r.user_id = u)).map (fun r => r.count)).sum * 100)).map
          round2).sum := by
      rw [(hperm.map (fun o => o.percentage)).sum_eq, hfm, List.map_map, List.map_map]
      congr 1
      apply List.map_congr_left
      intro p hp
      have hpu : p.2.user_id = u := by
        have := (List.mem_filter.mp hp).2
        simpa using this
      simp only [Function.comp_apply]
      rw [hpu, userDenom_eq, if_neg hTn]
    have hcnt : (((byUserCat data).filter (fun p => p.2.user_id = u)).map
        (fun p => p.2.count)).sum =
        ((data.filter (fun r => r.user_id = u)).map (fun r => r.count)).sum := by
      rw [sum_filter_eq_sum_if (byUserCat data) (fun p => p.2.user_id = u)
        (fun p => p.2.count)]
      rw [sum_filter_eq_sum_if data (fun r => r.user_id = u) (fun r => r.count)]
      exact byUserCat_user_sum data u hinj
    have hexact : (((byUserCat data).filter (fun p => p.2.user_id = u)).map
        (fun p => p.2.count /
          ((data.filter (fun r => r.user_id = u)).map (fun r => r.count)).sum * 100)).sum =
        100 := by
      have h1 : (((byUserCat data).filter (fun p => p.2.user_id = u)).map
          (fun p => p.2.count /
            ((data.filter (fun r => r.user_id = u)).map (fun r => r.count)).sum * 100)).sum =
          (((byUserCat data).filter (fun p => p.2.user_id = u)).map
            (fun p => p.2.count *
              (100 / ((data.filter (fun r => r.user_id = u)).map
                (fun r => r.count)).sum))).sum := by
        congr 1
        apply List.map_congr_left
        intro p _
        ring
      rw [h1, List.sum_map_mul_right, hcnt]
      field_simp
    have hnear := sum_round2_near (((byUserCat data).filter
      (fun p => p.2.user_id = u)).map
      (fun p => p.2.count /
        ((data.filter (fun r => r.user_id = u)).map (fun r => r.count)).sum * 100))
    rw [hexact, List.length_map] at hnear
    have hlen : ((aggregateCategoryByUser data).filter (fun o => o.user_id = u)).length =
        ((byUserCat data).filter (fun p => p.2.user_id = u)).length := by
      rw [hperm.length_eq, hfm, List.length_map]
    rw [hsum, hlen]
    exact hnear

/-- C10 witness: one user split across two categories with counts 1 and 3 has
positive total 4 and percentages 25 and 75, summing to 100 within tolerance. -/
theorem aggregateCategoryByUser_per_user_witness :
    0 < ((([CatUserRow.mk "u1" "n1" "A" 1 0 none,
        CatUserRow.mk "u1" "n1" "B" 3 0 none]).filter
        (fun r => r.user_id = "u1")).map (fun r => r.count)).sum ∧
    |(((aggregateCategoryByUser
        [CatUserRow.mk "u1" "n1" "A" 1 0 none,
         CatUserRow.mk "u1" "n1" "B" 3 0 none]).filter
        (fun o => o.user_id = "u1")).map (fun o => o.percentage)).sum - 100| ≤
      (((aggregateCategoryByUser
        [CatUserRow.mk "u1" "n1" "A" 1 0 none,
         CatUserRow.mk "u1" "n1" "B" 3 0 none]).filter
        (fun o => o.user_id = "u1")).length : ℚ) / 200 := by
  have hpos : 0 < ((([CatUserRow.mk "u1" "n1" "A" 1 0 none,
      CatUserRow.mk "u1" "n1" "B" 3 0 none]).filter
      (fun r => r.user_id = "u1")).map (fun r => r.count)).sum := by
    norm_num
  refine ⟨hpos, (aggregateCategoryByUser_per_user
    [CatUserRow.mk "u1" "n1" "A" 1 0 none, CatUserRow.mk "u1" "n1" "B" 3 0 none]
    "u1" ?_ ?_).2.2 hpos⟩
  · intro r hr s hs
    fin_cases hr <;> fin_cases hs <;> (intro _; rfl)
  · intro r hr
    fin_cases hr <;> norm_num

/-- C2 amended: both aggregations never read the precomputed input
percentages (rewriting them arbitrarily leaves the output unchanged) and
recompute each output percentage from the summed counts, rounded to two
decimals — but the denominators differ: category-distribution divides by the
sum over all categories, while category-by-individual divides by the own user
total of that row (defaulting to 1 when that total is 0), not by the grand
total. -/
theorem percentage_rederivation :
    (∀ (data : List CatRow) (g : CatRow → ℚ),
      aggregateCategoryDistribution
        (data.map (fun r => CatRow.mk r.category r.count (g r) r.supplier_id)) =
      aggregateCategoryDistribution data) ∧
    (∀ (data : List CatUserRow) (g : CatUserRow → ℚ),
      aggregateCategoryByUser
        (data.map (fun r =>
          CatUserRow.mk r.user_id r.user_name r.category r.count (g r) r.supplier_id)) =
      aggregateCategoryByUser data) ∧
    (∀ (data : List CatRow), ∀ o ∈ aggregateCategoryDistribution data,
      o.percentage =
        (if 0 < ((aggregateCategoryDistribution data).map (fun q => q.count)).sum then
          round2 (o.count /
            ((aggregateCategoryDistribution data).map (fun q => q.count)).sum * 100)
        else 0)) ∧
    (∀ (data : List CatUserRow), ∀ o ∈ aggregateCategoryByUser data,
      o.percentage = round2 (o.count /
        (if ((data.filter (fun r => r.user_id = o.user_id)).map (fun r => r.count)).sum = 0
         then 1
         else ((data.filter (fun r => r.user_id = o.user_id)).map
           (fun r => r.count)).sum) * 100)) := by
  refine ⟨?_, ?_, ?_, ?_⟩
  · intro data g
    have hby : byCatD (data.map (fun r => CatRow.mk r.category r.count (g r) r.supplier_id)) =
        byCatD data :=
      groupFold_map_invariant (fun r : CatRow => r.category)
        (fun r : CatRow => r.count) (fun (a : ℚ) (r : CatRow) => a + r.count)
        (fun r : CatRow => CatRow.mk r.category r.count (g r) r.supplier_id)
        (fun _ => rfl) (fun _ => rfl) (fun _ _ => rfl) data
    rw [aggregateCategoryDistribution_eq, aggregateCategoryDistribution_eq, hby]
  · intro data g
    have hbyu : byUserCat (data.map (fun r =>
        CatUserRow.mk r.user_id r.user_name r.category r.count (g r) r.supplier_id)) =
        byUserCat data :=
      groupFold_map_invariant keyUC iniUC updUC
        (fun r : CatUserRow =>
          CatUserRow.mk r.user_id r.user_name r.category r.count (g r) r.supplier_id)
        (fun _ => rfl) (fun _ => rfl) (fun _ _ => rfl) data
    have huser : userTotals (data.map (fun r =>
        CatUserRow.mk r.user_id r.user_name r.category r.count (g r) r.supplier_id)) =
        userTotals data :=
      groupFold_map_invariant (fun r : CatUserRow => r.user_id)
        (fun r : CatUserRow => r.count) (fun (a : ℚ) (r : CatUserRow) => a + r.count)
        (fun r : CatUserRow =>
          CatUserRow.mk r.user_id r.user_name r.category r.count (g r) r.supplier_id)
        (fun _ => rfl) (fun _ => rfl) (fun _ _ => rfl) data
    have hud : ∀ uid, userDenom (data.map (fun r =>
        CatUserRow.mk r.user_id r.user_name r.category r.count (g r) r.supplier_id)) uid =
        userDenom data uid := by
      intro uid
      rw [userDenom, userDenom, huser]
    rw [aggregateCategoryByUser, aggregateCategoryByUser, hbyu]
    simp only [hud]
  · intro data o ho
    have hid : ((aggregateCategoryDistribution data).map (fun q => q.count)).sum
        = ((byCatD data).map (fun q => q.2)).sum := by
      rw [aggregateCategoryDistribution_eq, List.map_map]
      rfl
    rw [aggregateCategoryDistribution_eq] at ho
    obtain ⟨p, hp, heq⟩ := List.mem_map.mp ho
    subst heq
    rw [hid]
  · intro data o ho
    rw [aggregateCategoryByUser_pct data o ho, userDenom_eq]

/-- C2 counterexample: two users who each filed the same category once with
counts 1 and 3 both get percentage 100 (their own totals), not the 25 and 75
the all-keys denominator of the claim would give. -/
theorem percentage_rederivation_counterexample :
    (aggregateCategoryByUser
      [CatUserRow.mk "u1" "n1" "A" 1 0 none, CatUserRow.mk "u2" "n2" "A" 3 0 none]).Perm
      [CatUserOut.mk "u1" "n1" "A" 1 100, CatUserOut.mk "u2" "n2" "A" 3 100] ∧
    round2 (1 / (1 + 3) * 100) = 25 ∧
    (100 : ℚ) ≠ 25 := by
  refine ⟨?_, by norm_num [round2, jsRound], by norm_num⟩
  have hl : (byUserCat
      [CatUserRow.mk "u1" "n1" "A" 1 0 none, CatUserRow.mk "u2" "n2" "A" 3 0 none]).map
      (fun p => CatUserOut.mk p.2.user_id p.2.user_name p.2.category p.2.count
        (round2 (p.2.count / userDenom
          [CatUserRow.mk "u1" "n1" "A" 1 0 none, CatUserRow.mk "u2" "n2" "A" 3 0 none]
          p.2.user_id * 100))) =
      [CatUserOut.mk "u1" "n1" "A" 1 100, CatUserOut.mk "u2" "n2" "A" 3 100] := by
    simp [byUserCat, userTotals, userDenom, groupFold, gstep, alookup, iniUC, updUC, keyUC]
    norm_num [round2, jsRound]
  rw [aggregateCategoryByUser]
  rw [hl]
  exact List.mergeSort_perm _ _

/-- C2 witness: a single category with count 1 gets percentage 100 from the
re-derived formula, and rewriting the input percentage field to an arbitrary
value leaves the output unchanged. -/
theorem percentage_rederivation_witness :
    (CatOut.mk "x" 1 100 ∈ aggregateCategoryDistribution [CatRow.mk "x" 1 7 none]) ∧
    (CatOut.mk "x" 1 100).percentage =
      (if 0 < ((aggregateCategoryDistribution [CatRow.mk "x" 1 7 none]).map
          (fun q => q.count)).sum then
        round2 ((CatOut.mk "x" 1 100).count /
          ((aggregateCategoryDistribution [CatRow.mk "x" 1 7 none]).map
            (fun q => q.count)).sum * 100)
      else 0) ∧
    aggregateCategoryDistribution
      ([CatRow.mk "x" 1 7 none].map (fun r => CatRow.mk r.category r.count 55 r.supplier_id)) =
      aggregateCategoryDistribution [CatRow.mk "x" 1 7 none] := by
  have hmem : CatOut.mk "x" 1 100 ∈ aggregateCategoryDistribution [CatRow.mk "x" 1 7 none] := by
    norm_num [aggregateCategoryDistribution, groupFold, gstep, alookup, round2, jsRound]
  exact ⟨hmem,
    (percentage_rederivation).2.2.1 [CatRow.mk "x" 1 7 none] (CatOut.mk "x" 1 100) hmem,
    (percentage_rederivation).1 [CatRow.mk "x" 1 7 none] (fun _ => 55)⟩
